import Mathlib

/-!
Shallow embedding of the core of `nginx-log-exporter` (Go):
the consume-aggregate-flush pipeline (`consumer` package) and the file
tailer (`file` package).  Go maps used for per-cycle aggregation are
modelled as association lists in insertion order; Go `float64` values that
the code only initializes, compares with `>= 0`, adds `1` to, or passes
through are modelled as `Rat`; timestamps are modelled as `Int` (the code
only compares them with `After`, i.e. `<`).  Calls into the Go standard
library (JSON unmarshalling, `time.Parse`, `fmt.Sscanf`,
`url.ParseRequestURI`) are modelled as oracle fields of an `Env`
structure, since their implementations are not part of this repository;
everything written in the repository itself is translated directly.
-/

namespace NginxLogExporter

/-- Label maps / annotation maps (`map[string]string` in Go), as assoc lists. -/
abbrev Annot := List (String × String)

/-- Lookup in an assoc list keyed by strings (Go map read `m[k]`). -/
def lookupKey {α : Type} (m : List (String × α)) (k : String) : Option α :=
  (m.find? (fun p => p.1 = k)).map (fun p => p.2)

/-- Go map write `m[k] = v`: replace the binding if present, else append. -/
def insertKey {α : Type} (m : List (String × α)) (k : String) (v : α) :
    List (String × α) :=
  if (lookupKey m k).isSome then
    m.map (fun p => if p.1 = k then (p.1, v) else p)
  else m ++ [(k, v)]

/-- `annotatedCount` from consumer.go: a running total with the annotations
supplied when the key was first seen (`nil` modelled as `none`). -/
structure annotatedCount where
  total : Nat
  annotations : Option Annot
deriving Repr, DecidableEq

/-- `keyedCounter` from consumer.go (`map[string]*annotatedCount`). -/
abbrev keyedCounter := List (String × annotatedCount)

/-- `newKeyedCounter` from consumer.go. -/
def newKeyedCounter : keyedCounter := []

/-- `keyedCounter.inc` from consumer.go: bump an existing key's total, or
insert the key with total 1 and a copy of the supplied annotations. -/
def inc (c : keyedCounter) (key : String) (annotations' : Option Annot) :
    keyedCounter :=
  if (lookupKey c key).isSome then
    c.map (fun p =>
      if p.1 = key then
        (p.1, { total := p.2.total + 1, annotations := p.2.annotations })
      else p)
  else c ++ [(key, { total := 1, annotations := annotations' })]

/-- `annotatedObservations` from consumer.go. -/
structure annotatedObservations where
  seen : List Rat
  annotations : Option Annot
deriving Repr, DecidableEq

/-- `keyedAccumulator` from consumer.go (`map[string]*annotatedObservations`). -/
abbrev keyedAccumulator := List (String × annotatedObservations)

/-- `newKeyedAccumulator` from consumer.go. -/
def newKeyedAccumulator : keyedAccumulator := []

/-- `keyedAccumulator.record` from consumer.go: append to an existing key's
observation list, or insert the key with a singleton list and a copy of the
supplied annotations. -/
def record (a : keyedAccumulator) (key : String) (value : Rat)
    (annotations' : Option Annot) : keyedAccumulator :=
  if (lookupKey a key).isSome then
    a.map (fun p =>
      if p.1 = key then
        (p.1, { seen := p.2.seen ++ [value], annotations := p.2.annotations })
      else p)
  else a ++ [(key, { seen := [value], annotations := annotations' })]

/-- `parsedLogLine` from consumer.go: the common representation for a parsed
log line across formats.  `requestTime` and `bytesSent` values below `0`
mean the field is not present. -/
structure parsedLogLine where
  time : Int
  request : String
  status : String
  requestTime : Rat
  bytesSent : Rat
deriving Repr, DecidableEq

/-- The fields of the anonymous struct that `parseJSON` asks
`json.Unmarshal` to fill in: `request_time` and `bytes_sent` are `none`
when absent from the JSON object (the Go code pre-fills them with the
sentinel `-1`, which `json.Unmarshal` leaves in place when the key is
missing); absent string fields are the empty string, as in Go. -/
structure jsonLineRaw where
  timeStr : String
  request : String
  status : String
  requestTime : Option Rat
  bytesSent : Option Rat
deriving Repr, DecidableEq

/-- The fields that `fmt.Sscanf` fills in for `parseCLF`
(format string `%s %s %s [%s %5s] %q %s %f`). -/
structure clfLineRaw where
  remoteHost : String
  clientID : String
  userID : String
  timeStr : String
  timeZone : String
  request : String
  status : String
  bytesSent : Rat
deriving Repr, DecidableEq

/-- Oracles for the Go standard-library calls the consumer makes; their
implementations are not part of this repository, so the embedding is
parametric in them.  `none` models a returned error.
`sscanfCLF` returns the number of items successfully extracted together
with the extracted fields (as `fmt.Sscanf` does); `none` models a non-nil
scan error. -/
structure Env where
  jsonUnmarshal : String → Option jsonLineRaw
  parseTimeISO : String → Option Int
  sscanfCLF : String → Option (Nat × clfLineRaw)
  parseTimeCLF : String → Option Int
  parseRequestURI : String → Option String

/-- `parseJSON` from consumer.go: unmarshal the line, then parse the
ISO 8601 timestamp; either failure is a parse error (`none`). -/
def parseJSON (env : Env) (b : String) : Option parsedLogLine :=
  match env.jsonUnmarshal b with
  | none => none
  | some line =>
    match env.parseTimeISO line.timeStr with
    | none => none
    | some t =>
      some { time := t
             request := line.request
             status := line.status
             requestTime := line.requestTime.getD (-1)
             bytesSent := line.bytesSent.getD (-1) }

/-- `parseCLF` from consumer.go: scan the 8 leading fields (a scan error or
fewer than 8 extracted items is a parse error), then parse the timestamp
built from the time and timezone tokens.  `RequestTime` is pre-filled with
the sentinel `-1` and never scanned, so it is `-1` in every successful
result. -/
def parseCLF (env : Env) (b : String) : Option parsedLogLine :=
  match env.sscanfCLF b with
  | none => none
  | some (numItems, line) =>
    if numItems < 8 then none
    else
      match env.parseTimeCLF (line.timeStr ++ " " ++ line.timeZone) with
      | none => none
      | some t =>
        some { time := t
               request := line.request
               status := line.status
               requestTime := -1
               bytesSent := line.bytesSent }

/-- `logStats` from consumer.go: the per-cycle aggregation window. -/
structure logStats where
  statusCounts : keyedCounter
  detailedStatusCounts : keyedCounter
  latencyObservations : keyedAccumulator
  bytesSentObservations : keyedAccumulator
deriving Repr, DecidableEq

/-- The fresh `logStats` literal built at the top of `consumeBytes`. -/
def freshLogStats : logStats :=
  { statusCounts := newKeyedCounter
    detailedStatusCounts := newKeyedCounter
    latencyObservations := newKeyedAccumulator
    bytesSentObservations := newKeyedAccumulator }

/-- Finish one scanned line (`dropCR` in `bufio.ScanLines`): the
accumulator holds the line's characters in reverse; one trailing carriage
return is stripped. -/
def tokenOf (acc : List Char) : String :=
  match acc with
  | '\r' :: rest => String.mk rest.reverse
  | _ => String.mk acc.reverse

/-- Worker for `splitLines`: emit a token at each newline; at end-of-input
a final unterminated line is still returned, and nothing is returned for
empty remaining input. -/
def scanLinesAux : List Char → List Char → List String
  | [], acc => if acc.isEmpty then [] else [tokenOf acc]
  | c :: cs, acc =>
    if c = '\n' then tokenOf acc :: scanLinesAux cs []
    else scanLinesAux cs (c :: acc)

/-- The token stream produced by `bufio.Scanner` with the default
`ScanLines` splitter over the byte block: lines separated by newline, the
terminator (and a carriage return before it) stripped, a final
unterminated line still returned, and no token for empty input. -/
def splitLines (s : String) : List String :=
  scanLinesAux s.data []

/-- Worker for `goFields`: split around runs of whitespace, accumulating
the current field's characters in reverse. -/
def goFieldsAux : List Char → List Char → List String
  | [], acc => if acc.isEmpty then [] else [String.mk acc.reverse]
  | c :: cs, acc =>
    if c.isWhitespace then
      if acc.isEmpty then goFieldsAux cs []
      else String.mk acc.reverse :: goFieldsAux cs []
    else goFieldsAux cs (c :: acc)

/-- `strings.Fields`: the whitespace-separated fields of a string. -/
def goFields (s : String) : List String :=
  goFieldsAux s.data []

/-- `Consumer.consumeLine` from consumer.go: increment the status counter;
record latency and size observations when present (`>= 0`); and, when the
request field has exactly 3 fields, its URI parses, and the path is in the
configured path set, increment the detailed counter keyed by
status:method:path with the label annotations. -/
def consumeLine (env : Env) (paths : List String) (line : parsedLogLine)
    (stats : logStats) : logStats :=
  let stats := { stats with statusCounts := inc stats.statusCounts line.status none }
  let stats :=
    if line.requestTime ≥ 0 then
      { stats with latencyObservations :=
          (record stats.latencyObservations line.status line.requestTime none) }
    else stats
  let stats :=
    if line.bytesSent ≥ 0 then
      { stats with bytesSentObservations :=
          (record stats.bytesSentObservations line.status line.bytesSent none) }
    else stats
  let requestFields := goFields line.request
  if requestFields.length ≠ 3 then
    stats
  else
    match env.parseRequestURI (requestFields.getD 1 "") with
    | none => stats
    | some uPath =>
      if uPath ∈ paths then
        { stats with detailedStatusCounts :=
            (inc stats.detailedStatusCounts
              (String.intercalate ":" [line.status, requestFields.getD 0 "", uPath])
              (some [("status_code", line.status), ("path", uPath),
                     ("method", requestFields.getD 0 "")])) }
      else stats

/-- One call made on a metric handle during a flush. -/
inductive MetricCall where
  | add (metric : String) (labels : Annot) (value : Rat)
  | observe (metric : String) (labels : Annot) (values : List Rat)
deriving Repr, DecidableEq

/-- The metric handles' behaviour: `true` means the `Add`/`Observe` call
succeeds, `false` that it returns an error. -/
abbrev Sink := MetricCall → Bool

/-- One of the flush `for` loops over a `keyedCounter`: the trace of calls
made, and whether the loop completed without error (an erroring call is the
last one made). -/
def flushCounterLoop (sink : Sink) (mkCall : String → annotatedCount → MetricCall) :
    keyedCounter → List MetricCall × Bool
  | [] => ([], true)
  | (code, count) :: rest =>
    let call := mkCall code count
    if sink call then
      let r := flushCounterLoop sink mkCall rest
      (call :: r.1, r.2)
    else ([call], false)

/-- One of the flush `for` loops over a `keyedAccumulator`. -/
def flushHistLoop (sink : Sink) (mkCall : String → annotatedObservations → MetricCall) :
    keyedAccumulator → List MetricCall × Bool
  | [] => ([], true)
  | (code, obs) :: rest =>
    let call := mkCall code obs
    if sink call then
      let r := flushHistLoop sink mkCall rest
      (call :: r.1, r.2)
    else ([call], false)

/-- Sequencing of flush loops: a loop that errored short-circuits the rest
of the flush (`return err` in `consumeBytes`). -/
def seqFlush (first : List MetricCall × Bool) (rest : Unit → List MetricCall × Bool) :
    List MetricCall × Bool :=
  if first.2 then
    let r := rest ()
    (first.1 ++ r.1, r.2)
  else first

/-- The label map built for a detailed count entry in `consumeBytes`:
start from `{"status_code": code}` and overlay the stored annotations. -/
def detailedLabels (code : String) (count : annotatedCount) : Annot :=
  (count.annotations.getD []).foldl (fun ls kv => insertKey ls kv.1 kv.2)
    [("status_code", code)]

/-- The aggregation phase of `Consumer.consumeBytes`: scan the block line
by line, skip lines that fail to parse, and fold in parsed lines whose
timestamp is strictly after `initFinshed` (the field name's spelling is the
source's). -/
def scanStats (env : Env) (parse : String → Option parsedLogLine)
    (paths : List String) (initFinshed : Int) (b : String) : logStats :=
  (splitLines b).foldl
    (fun stats lineBytes =>
      match parse lineBytes with
      | none => stats
      | some nextLine =>
        if initFinshed < nextLine.time then consumeLine env paths nextLine stats
        else stats)
    freshLogStats

/-- The flush phase of `Consumer.consumeBytes`: the four flush loops in
source order, each aborting the whole flush on the first erroring call. -/
def flushStats (sink : Sink) (stats : logStats) : List MetricCall × Bool :=
  seqFlush
    (flushCounterLoop sink
      (fun code count =>
        MetricCall.add "http_response_count" [("status_code", code)]
          (count.total : Rat))
      stats.statusCounts) (fun _ =>
  seqFlush
    (flushCounterLoop sink
      (fun code count =>
        MetricCall.add "detailed_http_response_count" (detailedLabels code count)
          (count.total : Rat))
      stats.detailedStatusCounts) (fun _ =>
  seqFlush
    (flushHistLoop sink
      (fun code obs =>
        MetricCall.observe "http_response_time" [("status_code", code)] obs.seen)
      stats.latencyObservations) (fun _ =>
  flushHistLoop sink
    (fun code obs =>
      MetricCall.observe "http_response_bytes_sent" [("status_code", code)] obs.seen)
    stats.bytesSentObservations)))

/-- `Consumer.consumeBytes` from consumer.go: aggregate the block, then
flush; the result is the trace of metric-handle calls made and whether the
cycle completed without error. -/
def consumeBytes (env : Env) (parse : String → Option parsedLogLine)
    (paths : List String) (initFinshed : Int) (sink : Sink) (b : String) :
    List MetricCall × Bool :=
  flushStats sink (scanStats env parse paths initFinshed b)

/-- `bytesSentBuckets` from consumer.go. -/
def bytesSentBuckets : List Rat := [8, 16, 64, 128, 256, 512, 1024, 2048, 4096]

/-- One call made on the metrics `ManagerT` during `NewConsumer`. -/
inductive MgrCall where
  | addCounter (name help : String) (labelNames : List String)
  | getCounter (name : String)
  | addHistogram (name help : String) (labelNames : List String)
      (buckets : Option (List Rat))
  | getHistogram (name : String)
deriving Repr, DecidableEq

/-- The manager's behaviour: `true` means the call succeeds. -/
abbrev Manager := MgrCall → Bool

/-- One manager call followed by the rest of construction; a failing call
aborts construction (`return nil, err`). -/
def mgrStep (m : Manager) (call : MgrCall) (rest : Unit → List MgrCall × Bool) :
    List MgrCall × Bool :=
  if m call then
    let r := rest ()
    (call :: r.1, r.2)
  else ([call], false)

/-- `NewConsumer` from consumer.go, as the trace of manager calls it makes
and whether construction succeeds: the format switch runs first (an
unsupported format aborts before any metric is created), then the four
metrics are created and retrieved in source order. -/
def NewConsumer (m : Manager) (format : String) : List MgrCall × Bool :=
  if format = "JSON" ∨ format = "CLF" then
    mgrStep m (.addCounter "http_response_count"
        "Counts of responses by status code" ["status_code"]) (fun _ =>
    mgrStep m (.getCounter "http_response_count") (fun _ =>
    mgrStep m (.addCounter "detailed_http_response_count"
        "Counts of responses by status code, path, and method"
        ["status_code", "path", "method"]) (fun _ =>
    mgrStep m (.getCounter "detailed_http_response_count") (fun _ =>
    mgrStep m (.addHistogram "http_response_time"
        "Response time (seconds) by status code" ["status_code"] none) (fun _ =>
    mgrStep m (.getHistogram "http_response_time") (fun _ =>
    mgrStep m (.addHistogram "http_response_bytes_sent"
        "Response size (bytes) by status code" ["status_code"]
        (some bytesSentBuckets)) (fun _ =>
    mgrStep m (.getHistogram "http_response_bytes_sent") (fun _ =>
    ([], true)))))))))
  else ([], false)

/-- One iteration's worth of input to the `Consumer.Run` loop: either the
stop signal arrives while waiting out the period, or the period elapses and
the tailer's `Next` returns a byte block or an error. -/
inductive PollEvent where
  | stop
  | bytesRead (b : String)
  | tailerErr
deriving Repr, DecidableEq

/-- How the `Run` loop left off. -/
inductive RunOutcome where
  | stopped
  | tailerError
  | consumeError
  | running
deriving Repr, DecidableEq

/-- `Consumer.Run` from consumer.go over a finite schedule of per-iteration
events: returns how the loop ended and how many events it consumed
(`running` means the schedule was exhausted with the loop still alive).
A tailer error or a `consumeBytes` error returns immediately. -/
def Run (env : Env) (parse : String → Option parsedLogLine)
    (paths : List String) (initFinshed : Int) (sink : Sink) :
    List PollEvent → RunOutcome × Nat
  | [] => (.running, 0)
  | .stop :: _ => (.stopped, 1)
  | .tailerErr :: _ => (.tailerError, 1)
  | .bytesRead b :: rest =>
    if (consumeBytes env parse paths initFinshed sink b).2 then
      let r := Run env parse paths initFinshed sink rest
      (r.1, r.2 + 1)
    else (.consumeError, 1)

/-! ### The file tailer (`file` package) -/

/-- The parts of the file system the Tailer's operations observe at one
instant: the current content of each inode (identified by a `Nat`
fingerprint, standing for the `os.FileInfo` identity that `os.SameFile`
compares), what the tailed path currently resolves to (`none` models a
failed `os.Open`/`Stat` during a rotation check), and whether reading the
held handle succeeds. -/
structure World where
  content : Nat → List Char
  resolve : Option Nat
  readOk : Bool

/-- A handle-lifecycle event (ghost state, to reason about how many
handles the Tailer keeps open). -/
inductive FSEvent where
  | opened (id : Nat)
  | closed (id : Nat)
deriving Repr, DecidableEq

/-- `Tailer` from the `file` package: the held handle's identity
(`fileInfo`), its read cursor (an `os.File` tracks its own position; we
carry it explicitly), the time content was last seen, and the idle
threshold. -/
structure Tailer where
  fd : Nat
  offset : Nat
  lastContent : Int
  idleDuration : Int
deriving Repr, DecidableEq

/-- `Tailer.openOrRotate` (the steady-state case, `t.file != nil`):
re-resolve the path; on failure no state changes; if the same file, close
the freshly opened handle; otherwise close the old handle and adopt the
new one, whose cursor starts at byte 0. -/
def openOrRotate (w : World) (t : Tailer) : Tailer × List FSEvent :=
  match w.resolve with
  | none => (t, [])
  | some id =>
    if id = t.fd then (t, [.opened id, .closed id])
    else ({ t with fd := id, offset := 0 }, [.opened id, .closed t.fd])

/-- `NewTailer`: open the path (first-time branch of `openOrRotate`);
a resolution failure fails construction.  `lastContent` starts at the zero
time. -/
def NewTailer (w : World) (idleDuration : Int) : Option (Tailer × List FSEvent) :=
  match w.resolve with
  | none => none
  | some id =>
    some ({ fd := id, offset := 0, lastContent := 0, idleDuration := idleDuration },
          [.opened id])

/-- `Tailer.Next`: read everything from the cursor to end-of-file; if
content arrived, remember the time; if not and the idle threshold has been
exceeded since content was last seen, run the rotation check (its error,
if any, is swallowed). -/
def Next (w : World) (now : Int) (t : Tailer) :
    Except Unit (List Char × Tailer × List FSEvent) :=
  if !w.readOk then .error ()
  else
    let bytes := (w.content t.fd).drop t.offset
    let t₁ := { t with offset := t.offset + bytes.length }
    if bytes.length > 0 then
      .ok (bytes, { t₁ with lastContent := now }, [])
    else if now - t₁.lastContent > t₁.idleDuration then
      let r := openOrRotate w t₁
      .ok (bytes, r.1, r.2)
    else
      .ok (bytes, t₁, [])

/-- Replay handle-lifecycle events over the list of handles currently
held open. -/
def heldAfter (held : List Nat) : List FSEvent → List Nat
  | [] => held
  | .opened id :: evs => heldAfter (held ++ [id]) evs
  | .closed id :: evs => heldAfter (held.erase id) evs

/-- A sequence of `keyedCounter.inc` calls (key and annotations of each),
applied in order. -/
def incFold (ops : List (String × Option Annot)) (c : keyedCounter) :
    keyedCounter :=
  ops.foldl (fun c op => inc c op.1 op.2) c

/-- A sequence of `keyedAccumulator.record` calls (key, value and
annotations of each), applied in order. -/
def recordFold (ops : List (String × Rat × Option Annot)) (a : keyedAccumulator) :
    keyedAccumulator :=
  ops.foldl (fun a op => record a op.1 op.2.1 op.2.2) a

/-- The records of a block that survive the scan phase: lines that parse
successfully and whose timestamp is strictly after `initFinshed`. -/
def acceptedRecords (parse : String → Option parsedLogLine) (initFinshed : Int)
    (b : String) : List parsedLogLine :=
  ((splitLines b).filterMap parse).filter (fun r => initFinshed < r.time)

/-- Whether one line of the block parses successfully, carries a timestamp
strictly after `initFinshed`, and has status `S`. -/
def qualifies (parse : String → Option parsedLogLine) (initFinshed : Int)
    (S : String) (l : String) : Bool :=
  match parse l with
  | some r => decide (initFinshed < r.time) && decide (r.status = S)
  | none => false

/-- Extract from a metric-handle call the (status code, value) pair of an
`Add` on `http_response_count`, if it is one. -/
def statusCounterCall (c : MetricCall) : Option (String × Rat) :=
  match c with
  | .add metric labels v =>
    if metric = "http_response_count" then
      match labels with
      | [(k, code)] => if k = "status_code" then some (code, v) else none
      | _ => none
    else none
  | .observe _ _ _ => none

/-- All `(status code, value)` pairs flushed to `http_response_count` in a
trace of metric-handle calls. -/
def statusCounterCalls (trace : List MetricCall) : List (String × Rat) :=
  trace.filterMap statusCounterCall

/-- The metric-construction calls `NewConsumer` makes, in source order. -/
def ctorCalls : List MgrCall :=
  [.addCounter "http_response_count" "Counts of responses by status code"
     ["status_code"],
   .getCounter "http_response_count",
   .addCounter "detailed_http_response_count"
     "Counts of responses by status code, path, and method"
     ["status_code", "path", "method"],
   .getCounter "detailed_http_response_count",
   .addHistogram "http_response_time" "Response time (seconds) by status code"
     ["status_code"] none,
   .getHistogram "http_response_time",
   .addHistogram "http_response_bytes_sent" "Response size (bytes) by status code"
     ["status_code"] (some bytesSentBuckets),
   .getHistogram "http_response_bytes_sent"]

/-- Generic form of the flush loops: make each call in order, aborting at
the first one the sink rejects. -/
def callsLoop (sink : Sink) : List MetricCall → List MetricCall × Bool
  | [] => ([], true)
  | c :: rest =>
    if sink c then
      let r := callsLoop sink rest
      (c :: r.1, r.2)
    else ([c], false)

/-- The full sequence of metric-handle calls a cycle's flush would make if
nothing errored, in source order. -/
def flushCalls (stats : logStats) : List MetricCall :=
  stats.statusCounts.map (fun p =>
    MetricCall.add "http_response_count" [("status_code", p.1)] (p.2.total : Rat))
  ++ (stats.detailedStatusCounts.map (fun p =>
    MetricCall.add "detailed_http_response_count" (detailedLabels p.1 p.2)
      (p.2.total : Rat))
  ++ (stats.latencyObservations.map (fun p =>
    MetricCall.observe "http_response_time" [("status_code", p.1)] p.2.seen)
  ++ stats.bytesSentObservations.map (fun p =>
    MetricCall.observe "http_response_bytes_sent" [("status_code", p.1)] p.2.seen)))

/-- The keys of an association list are pairwise distinct. -/
def keysNodup {α : Type} (m : List (String × α)) : Prop :=
  (m.map Prod.fst).Nodup

/-! ### Test fixtures used by witness theorems -/

/-- A concrete oracle environment for witness evaluations. -/
def testEnv : Env where
  jsonUnmarshal := fun s =>
    if s = "jsonLate" then
      some { timeStr := "T1", request := "GET /foo HTTP/1.1", status := "200",
             requestTime := some ((1 : Rat) / 2), bytesSent := some 123 }
    else if s = "jsonEarly" then
      some { timeStr := "T0", request := "GET /foo HTTP/1.1", status := "200",
             requestTime := none, bytesSent := none }
    else none
  parseTimeISO := fun s =>
    if s = "T1" then some 10 else if s = "T0" then some 0 else none
  sscanfCLF := fun s =>
    if s = "clfOk" then
      some (8, { remoteHost := "h", clientID := "-", userID := "-",
                 timeStr := "D", timeZone := "Z",
                 request := "GET /foo HTTP/1.1", status := "200",
                 bytesSent := 99 })
    else if s = "clfShort" then
      some (5, { remoteHost := "h", clientID := "-", userID := "-",
                 timeStr := "", timeZone := "", request := "", status := "",
                 bytesSent := 0 })
    else none
  parseTimeCLF := fun s => if s = "D Z" then some 10 else none
  parseRequestURI := fun s => if s = "/foo" then some "/foo" else none

/-- A one-entry aggregation window for witnesses. -/
def testStats : logStats :=
  { statusCounts := [("200", { total := 1, annotations := none })]
    detailedStatusCounts := []
    latencyObservations := []
    bytesSentObservations := [] }

/-- A world for tailer witnesses: inode 0 holds "hello", inode 1 holds
"NEW", the path resolves to inode 1. -/
def testWorld : World where
  content := fun i => if i = 0 then "hello".data else if i = 1 then "NEW".data else []
  resolve := some 1
  readOk := true

/-- A tailer state for witnesses: holding inode 0, fully read. -/
def testTailer : Tailer where
  fd := 0
  offset := 5
  lastContent := 0
  idleDuration := 10

end NginxLogExporter

namespace NginxLogExporter

/-! ### Association-list lemmas about the aggregation structures -/

theorem lookupKey_cons {α : Type} (a : String × α) (m : List (String × α))
    (k : String) :
    lookupKey (a :: m) k = if a.1 = k then some a.2 else lookupKey m k := by
  by_cases h : a.1 = k <;> simp [lookupKey, List.find?_cons, h]

theorem lookupKey_append {α : Type} (m₁ m₂ : List (String × α)) (k : String) :
    lookupKey (m₁ ++ m₂) k =
      match lookupKey m₁ k with
      | some v => some v
      | none => lookupKey m₂ k := by
  induction m₁ with
  | nil => simp [lookupKey]
  | cons a m ih =>
    rw [List.cons_append, lookupKey_cons, lookupKey_cons]
    by_cases h : a.1 = k <;> simp [h, ih]

theorem lookupKey_inc_map (c : keyedCounter) (key k : String) :
    lookupKey
      (c.map fun p =>
        if p.1 = key then
          (p.1, { total := p.2.total + 1, annotations := p.2.annotations })
        else p) k =
      if k = key then
        (lookupKey c k).map
          (fun ac => { total := ac.total + 1, annotations := ac.annotations })
      else lookupKey c k := by
  induction c with
  | nil => by_cases h : k = key <;> simp [lookupKey, h]
  | cons a c ih =>
    rw [List.map_cons, lookupKey_cons]
    by_cases h1 : a.1 = key
    · rw [if_pos h1]
      by_cases h2 : a.1 = k
      · have hk : k = key := by rw [← h2, h1]
        simp [lookupKey_cons, h2, hk]
      · have hk : ¬k = key := fun hh => h2 (by rw [h1, hh])
        simp [lookupKey_cons, h2, hk] at ih ⊢
        exact ih
    · rw [if_neg h1]
      by_cases h2 : a.1 = k
      · have hk : ¬k = key := fun hh => h1 (by rw [h2, hh])
        simp [lookupKey_cons, h2, hk]
      · simp [lookupKey_cons, h2] at ih ⊢
        exact ih

theorem lookupKey_record_map (a : keyedAccumulator) (value : Rat) (key k : String) :
    lookupKey
      (a.map fun p =>
        if p.1 = key then
          (p.1, { seen := p.2.seen ++ [value], annotations := p.2.annotations })
        else p) k =
      if k = key then
        (lookupKey a k).map
          (fun ao => { seen := ao.seen ++ [value], annotations := ao.annotations })
      else lookupKey a k := by
  induction a with
  | nil => by_cases h : k = key <;> simp [lookupKey, h]
  | cons p a ih =>
    rw [List.map_cons, lookupKey_cons]
    by_cases h1 : p.1 = key
    · rw [if_pos h1]
      by_cases h2 : p.1 = k
      · have hk : k = key := by rw [← h2, h1]
        simp [lookupKey_cons, h2, hk]
      · have hk : ¬k = key := fun hh => h2 (by rw [h1, hh])
        simp [lookupKey_cons, h2, hk] at ih ⊢
        exact ih
    · rw [if_neg h1]
      by_cases h2 : p.1 = k
      · have hk : ¬k = key := fun hh => h1 (by rw [h2, hh])
        simp [lookupKey_cons, h2, hk]
      · simp [lookupKey_cons, h2] at ih ⊢
        exact ih

theorem lookupKey_inc (c : keyedCounter) (key : String) (ann : Option Annot)
    (k : String) :
    lookupKey (inc c key ann) k =
      if k = key then
        match lookupKey c key with
        | none => some { total := 1, annotations := ann }
        | some ac => some { total := ac.total + 1, annotations := ac.annotations }
      else lookupKey c k := by
  unfold inc
  by_cases h : (lookupKey c key).isSome
  · rw [if_pos h, lookupKey_inc_map]
    obtain ⟨ac, hac⟩ := Option.isSome_iff_exists.mp h
    by_cases hk : k = key <;> simp [hk, hac]
  · have h' : lookupKey c key = none := Option.not_isSome_iff_eq_none.mp h
    rw [if_neg h, lookupKey_append]
    by_cases hk : k = key
    · subst hk
      rw [h', if_pos rfl, lookupKey_cons, if_pos rfl]
    · rw [if_neg hk]
      cases hc : lookupKey c k with
      | some v => rfl
      | none =>
        rw [lookupKey_cons, if_neg (fun hh => hk hh.symm)]
        rfl

theorem lookupKey_record (a : keyedAccumulator) (key : String) (value : Rat)
    (ann : Option Annot) (k : String) :
    lookupKey (record a key value ann) k =
      if k = key then
        match lookupKey a key with
        | none => some { seen := [value], annotations := ann }
        | some ao => some { seen := ao.seen ++ [value], annotations := ao.annotations }
      else lookupKey a k := by
  unfold record
  by_cases h : (lookupKey a key).isSome
  · rw [if_pos h, lookupKey_record_map]
    obtain ⟨ao, hao⟩ := Option.isSome_iff_exists.mp h
    by_cases hk : k = key <;> simp [hk, hao]
  · have h' : lookupKey a key = none := Option.not_isSome_iff_eq_none.mp h
    rw [if_neg h, lookupKey_append]
    by_cases hk : k = key
    · subst hk
      rw [h', if_pos rfl, lookupKey_cons, if_pos rfl]
    · rw [if_neg hk]
      cases hc : lookupKey a k with
      | some v => rfl
      | none =>
        rw [lookupKey_cons, if_neg (fun hh => hk hh.symm)]
        rfl

theorem find?_key_map {α : Type} (f : String × α → String × α)
    (hf : ∀ p, (f p).1 = p.1) (c : List (String × α)) (k : String) :
    (c.map f).find? (fun p => p.1 = k) = (c.find? (fun p => p.1 = k)).map f := by
  induction c with
  | nil => rfl
  | cons a c ih =>
    by_cases h : a.1 = k <;>
      simp [List.find?_cons, hf, h, ih]

theorem lookupKey_incFold (ops : List (String × Option Annot)) (c : keyedCounter)
    (k : String) :
    lookupKey (incFold ops c) k =
      match lookupKey c k with
      | some ac =>
        some { total := ac.total + ops.countP (fun op => op.1 = k)
               annotations := ac.annotations }
      | none =>
        match ops.find? (fun op => op.1 = k) with
        | none => none
        | some op =>
          some { total := ops.countP (fun op => op.1 = k), annotations := op.2 } := by
  induction ops generalizing c with
  | nil =>
    cases hc : lookupKey c k with
    | some ac => cases ac; simp [incFold, hc]
    | none => simp [incFold, hc]
  | cons op ops ih =>
    have step : incFold (op :: ops) c = incFold ops (inc c op.1 op.2) := rfl
    rw [step, ih, lookupKey_inc]
    by_cases hk : k = op.1
    · rw [if_pos hk]
      cases hc : lookupKey c k with
      | some ac =>
        rw [← hk, hc]
        simp [List.countP_cons, hk.symm]; omega
      | none =>
        rw [← hk, hc]
        simp [List.find?_cons, List.countP_cons, hk.symm]; omega
    · have hk' : ¬op.1 = k := fun hh => hk hh.symm
      rw [if_neg hk]
      cases hc : lookupKey c k with
      | some ac => simp [hc, List.countP_cons, hk']
      | none =>
        simp [hc, List.find?_cons, List.countP_cons, hk']

theorem lookupKey_recordFold (ops : List (String × Rat × Option Annot))
    (a : keyedAccumulator) (k : String) :
    lookupKey (recordFold ops a) k =
      match lookupKey a k with
      | some ao =>
        some { seen := ao.seen ++ (ops.filter (fun op => op.1 = k)).map (fun op => op.2.1)
               annotations := ao.annotations }
      | none =>
        match ops.find? (fun op => op.1 = k) with
        | none => none
        | some op =>
          some { seen := (ops.filter (fun op => op.1 = k)).map (fun op => op.2.1)
                 annotations := op.2.2 } := by
  induction ops generalizing a with
  | nil =>
    cases hc : lookupKey a k with
    | some ao => cases ao; simp [recordFold, hc]
    | none => simp [recordFold, hc]
  | cons op ops ih =>
    have step : recordFold (op :: ops) a = recordFold ops (record a op.1 op.2.1 op.2.2) := rfl
    rw [step, ih, lookupKey_record]
    by_cases hk : k = op.1
    · rw [if_pos hk]
      cases hc : lookupKey a k with
      | some ao =>
        rw [← hk, hc]
        simp [List.filter_cons, hk.symm]
      | none =>
        rw [← hk, hc]
        simp [List.find?_cons, List.filter_cons, hk.symm]
    · have hk' : ¬op.1 = k := fun hh => hk hh.symm
      rw [if_neg hk]
      cases hc : lookupKey a k with
      | some ao => simp [hc, List.filter_cons, hk']
      | none =>
        simp [hc, List.find?_cons, List.filter_cons, hk']

/-- Claim C10: for every key in a `keyedCounter` or `keyedAccumulator`
built by a sequence of `inc` / `record` calls, the stored annotations are
exactly those supplied on the first call for that key (`none` if none were
supplied); later calls for the same key only increase the total (to the
number of calls for the key) or append an observation (the values of the
calls for the key, in order) and never alter the annotations. -/
theorem claim10_first_call_fixes_annotations
    (incOps : List (String × Option Annot))
    (recOps : List (String × Rat × Option Annot)) (k : String) :
    (lookupKey (incFold incOps newKeyedCounter) k =
      match incOps.find? (fun op => op.1 = k) with
      | none => none
      | some op =>
        some { total := incOps.countP (fun op => op.1 = k)
               annotations := op.2 }) ∧
    (lookupKey (recordFold recOps newKeyedAccumulator) k =
      match recOps.find? (fun op => op.1 = k) with
      | none => none
      | some op =>
        some { seen := (recOps.filter (fun op => op.1 = k)).map (fun op => op.2.1)
               annotations := op.2.2 }) := by
  constructor
  · rw [lookupKey_incFold]
    rfl
  · rw [lookupKey_recordFold]
    rfl

/-- Claim C8: a poll cycle whose byte block is empty performs zero calls
on any metric handle: the scan produces empty aggregates, every flush loop
runs zero iterations (empty call trace) and `consumeBytes` returns no
error. -/
theorem claim8_empty_cycle_makes_no_sink_calls (env : Env)
    (parse : String → Option parsedLogLine) (paths : List String)
    (initFinshed : Int) (sink : Sink) :
    scanStats env parse paths initFinshed "" = freshLogStats ∧
    consumeBytes env parse paths initFinshed sink "" = ([], true) := by
  constructor <;> rfl

/-- Claim C9: construction creates exactly the four metrics in order
(http_response_count counter with label status_code;
detailed_http_response_count counter with labels status_code, path, method;
http_response_time histogram with default buckets;
http_response_bytes_sent histogram with buckets 8..4096), and returns an
error without completing construction if the format string is neither
"JSON" nor "CLF" or if any creation/retrieval call fails (aborting at the
first failing call). -/
theorem claim9_construction_order_and_abort (m : Manager) (format : String) :
    (¬(format = "JSON" ∨ format = "CLF") → NewConsumer m format = ([], false)) ∧
    ((format = "JSON" ∨ format = "CLF") →
      ((∀ c ∈ ctorCalls, m c = true) → NewConsumer m format = (ctorCalls, true)) ∧
      (∀ j, j < 8 → (∀ c ∈ ctorCalls.take j, m c = true) →
        m (ctorCalls.getD j (.getCounter "")) = false →
        NewConsumer m format = (ctorCalls.take (j + 1), false))) := by
  constructor
  · intro hf
    unfold NewConsumer
    rw [if_neg hf]
  · intro hf
    constructor
    · intro hall
      simp [ctorCalls] at hall
      obtain ⟨h1, h2, h3, h4, h5, h6, h7, h8⟩ := hall
      unfold NewConsumer
      rw [if_pos hf]
      simp [mgrStep, h1, h2, h3, h4, h5, h6, h7, h8, ctorCalls]
    · intro j hj hpre hfail
      unfold NewConsumer
      rw [if_pos hf]
      interval_cases j <;>
        simp [ctorCalls] at hpre hfail ⊢ <;>
        simp [mgrStep, hfail, hpre]

/-- Witness for C9: with an always-succeeding manager and format "JSON",
construction makes exactly the four creation/retrieval call pairs and
succeeds. -/
theorem claim9_construction_order_and_abort_witness :
    NewConsumer (fun _ => true) "JSON" = (ctorCalls, true) :=
  ((claim9_construction_order_and_abort (fun _ => true) "JSON").2
    (Or.inl rfl)).1 (fun _ _ => rfl)

theorem consumeLine_eq (env : Env) (paths : List String)
    (line : parsedLogLine) (stats : logStats) :
    consumeLine env paths line stats =
      { statusCounts := inc stats.statusCounts line.status none
        detailedStatusCounts :=
          if (goFields line.request).length ≠ 3 then stats.detailedStatusCounts
          else
            match env.parseRequestURI ((goFields line.request).getD 1 "") with
            | none => stats.detailedStatusCounts
            | some uPath =>
              if uPath ∈ paths then
                inc stats.detailedStatusCounts
                  (String.intercalate ":"
                    [line.status, (goFields line.request).getD 0 "", uPath])
                  (some [("status_code", line.status), ("path", uPath),
                         ("method", (goFields line.request).getD 0 "")])
              else stats.detailedStatusCounts
        latencyObservations :=
          if line.requestTime ≥ 0 then
            record stats.latencyObservations line.status line.requestTime none
          else stats.latencyObservations
        bytesSentObservations :=
          if line.bytesSent ≥ 0 then
            record stats.bytesSentObservations line.status line.bytesSent none
          else stats.bytesSentObservations } := by
  by_cases h1 : line.requestTime ≥ 0 <;> by_cases h2 : line.bytesSent ≥ 0 <;>
    by_cases h3 : (goFields line.request).length ≠ 3 <;>
    cases h4 : env.parseRequestURI ((goFields line.request).getD 1 "") <;>
    simp [consumeLine, h1, h2, h3, h4] <;> simp_all <;> split <;> simp_all

theorem consumeLine_statusCounts (env : Env) (paths : List String)
    (line : parsedLogLine) (stats : logStats) :
    (consumeLine env paths line stats).statusCounts =
      inc stats.statusCounts line.status none := by
  rw [consumeLine_eq]

theorem consumeLine_latency (env : Env) (paths : List String)
    (line : parsedLogLine) (stats : logStats) :
    (consumeLine env paths line stats).latencyObservations =
      if line.requestTime ≥ 0 then
        record stats.latencyObservations line.status line.requestTime none
      else stats.latencyObservations := by
  rw [consumeLine_eq]

theorem consumeLine_bytesSent (env : Env) (paths : List String)
    (line : parsedLogLine) (stats : logStats) :
    (consumeLine env paths line stats).bytesSentObservations =
      if line.bytesSent ≥ 0 then
        record stats.bytesSentObservations line.status line.bytesSent none
      else stats.bytesSentObservations := by
  rw [consumeLine_eq]

theorem consumeLine_detailed_malformed (env : Env) (paths : List String)
    (line : parsedLogLine) (stats : logStats)
    (h : (goFields line.request).length ≠ 3 ∨
         env.parseRequestURI ((goFields line.request).getD 1 "") = none) :
    (consumeLine env paths line stats).detailedStatusCounts =
      stats.detailedStatusCounts := by
  rw [consumeLine_eq]
  show (ite _ _ _ : keyedCounter) = _
  rcases h with h | h
  · rw [if_pos h]
  · by_cases h3 : (goFields line.request).length ≠ 3
    · rw [if_pos h3]
    · rw [if_neg h3, h]

theorem foldl_parse_filter (env : Env) (parse : String → Option parsedLogLine)
    (paths : List String) (init : Int) (lines : List String) :
    ∀ s : logStats,
      lines.foldl (fun stats lineBytes =>
        match parse lineBytes with
        | none => stats
        | some nextLine =>
          if init < nextLine.time then consumeLine env paths nextLine stats
          else stats) s =
      ((lines.filterMap parse).filter (fun r => init < r.time)).foldl
        (fun st r => consumeLine env paths r st) s := by
  induction lines with
  | nil => intro s; rfl
  | cons l lines ih =>
    intro s
    cases h : parse l with
    | none => simp [h, ih]
    | some r =>
      by_cases ht : init < r.time <;> simp [h, ht, ih, List.filter_cons]

theorem scanStats_eq_foldl_accepted (env : Env)
    (parse : String → Option parsedLogLine) (paths : List String)
    (init : Int) (b : String) :
    scanStats env parse paths init b =
      (acceptedRecords parse init b).foldl
        (fun st r => consumeLine env paths r st) freshLogStats := by
  unfold scanStats acceptedRecords
  exact foldl_parse_filter env parse paths init (splitLines b) freshLogStats

theorem flushCounterLoop_allok (sink : Sink) (hs : ∀ c, sink c = true)
    (mk : String → annotatedCount → MetricCall) (l : keyedCounter) :
    flushCounterLoop sink mk l = (l.map (fun p => mk p.1 p.2), true) := by
  induction l with
  | nil => rfl
  | cons p l ih => simp [flushCounterLoop, hs, ih]

theorem flushHistLoop_allok (sink : Sink) (hs : ∀ c, sink c = true)
    (mk : String → annotatedObservations → MetricCall) (l : keyedAccumulator) :
    flushHistLoop sink mk l = (l.map (fun p => mk p.1 p.2), true) := by
  induction l with
  | nil => rfl
  | cons p l ih => simp [flushHistLoop, hs, ih]

theorem flushStats_allok (sink : Sink) (hs : ∀ c, sink c = true)
    (stats : logStats) :
    flushStats sink stats =
      (stats.statusCounts.map (fun p =>
         MetricCall.add "http_response_count" [("status_code", p.1)]
           (p.2.total : Rat))
       ++ (stats.detailedStatusCounts.map (fun p =>
         MetricCall.add "detailed_http_response_count" (detailedLabels p.1 p.2)
           (p.2.total : Rat))
       ++ (stats.latencyObservations.map (fun p =>
         MetricCall.observe "http_response_time" [("status_code", p.1)] p.2.seen)
       ++ stats.bytesSentObservations.map (fun p =>
         MetricCall.observe "http_response_bytes_sent" [("status_code", p.1)]
           p.2.seen))), true) := by
  unfold flushStats
  rw [flushCounterLoop_allok sink hs, flushCounterLoop_allok sink hs,
    flushHistLoop_allok sink hs, flushHistLoop_allok sink hs]
  simp [seqFlush]

/-- Claim C5: per-line failures never abort a cycle.  For every byte block,
the scan phase is equivalent to folding only the successfully parsed (and
time-accepted) records — a line that fails parsing is skipped with all
other lines still processed — and `consumeBytes` returns no error from the
parse phase (with non-erroring metric handles the whole cycle succeeds);
for a parsed line whose request field does not tokenize into exactly 3
fields or whose URI fails to parse, only detailed-path attribution is
disabled: its status count, duration observation and size observation are
still aggregated. -/
theorem claim5_per_line_failures_never_abort
    (env : Env) (parse : String → Option parsedLogLine) (paths : List String)
    (initFinshed : Int) (sink : Sink) (b : String) (line : parsedLogLine)
    (stats : logStats)
    (hsink : ∀ c, sink c = true)
    (hmal : (goFields line.request).length ≠ 3 ∨
            env.parseRequestURI ((goFields line.request).getD 1 "") = none) :
    (scanStats env parse paths initFinshed b =
      (acceptedRecords parse initFinshed b).foldl
        (fun st r => consumeLine env paths r st) freshLogStats) ∧
    (consumeBytes env parse paths initFinshed sink b).2 = true ∧
    (consumeLine env paths line stats).detailedStatusCounts =
      stats.detailedStatusCounts ∧
    (consumeLine env paths line stats).statusCounts =
      inc stats.statusCounts line.status none ∧
    (consumeLine env paths line stats).latencyObservations =
      (if line.requestTime ≥ 0 then
        record stats.latencyObservations line.status line.requestTime none
       else stats.latencyObservations) ∧
    (consumeLine env paths line stats).bytesSentObservations =
      (if line.bytesSent ≥ 0 then
        record stats.bytesSentObservations line.status line.bytesSent none
       else stats.bytesSentObservations) := by
  refine ⟨scanStats_eq_foldl_accepted env parse paths initFinshed b, ?_,
    consumeLine_detailed_malformed env paths line stats hmal,
    consumeLine_statusCounts env paths line stats,
    consumeLine_latency env paths line stats,
    consumeLine_bytesSent env paths line stats⟩
  show (flushStats sink (scanStats env parse paths initFinshed b)).2 = true
  rw [flushStats_allok sink hsink]

/-- Witness for C5 at a concrete input: a block with one bad line still
flushes without error, and a line with a malformed request field keeps its
status aggregation while detailed counts are untouched. -/
theorem claim5_per_line_failures_never_abort_witness :
    (consumeBytes testEnv (parseJSON testEnv) ["/foo"] 5 (fun _ => true)
      "jsonLate\nbad").2 = true ∧
    (consumeLine testEnv ["/foo"]
      { time := 10, request := "garbage", status := "200",
        requestTime := -1, bytesSent := -1 } freshLogStats).detailedStatusCounts =
      freshLogStats.detailedStatusCounts ∧
    (consumeLine testEnv ["/foo"]
      { time := 10, request := "garbage", status := "200",
        requestTime := -1, bytesSent := -1 } freshLogStats).statusCounts =
      inc freshLogStats.statusCounts "200" none := by
  have h := claim5_per_line_failures_never_abort testEnv (parseJSON testEnv)
    ["/foo"] 5 (fun _ => true) "jsonLate\nbad"
    { time := 10, request := "garbage", status := "200",
      requestTime := -1, bytesSent := -1 } freshLogStats
    (fun _ => rfl) (Or.inl (by decide))
  exact ⟨h.2.1, h.2.2.1, h.2.2.2.1⟩

/-- Claim C7: the CLF parser errors whenever the scan fails or extracts
fewer than the 8 required leading tokens; every successfully parsed CLF
record has the request-duration sentinel `-1`, so CLF lines never
contribute latency observations, while JSON lines with non-negative
`request_time` do. -/
theorem claim7_clf_has_no_request_time
    (env : Env) (paths : List String) (s : String) (r rj : parsedLogLine)
    (stats : logStats) (n : Nat) (raw : clfLineRaw) :
    (env.sscanfCLF s = none → parseCLF env s = none) ∧
    (env.sscanfCLF s = some (n, raw) → n < 8 → parseCLF env s = none) ∧
    (parseCLF env s = some r → r.requestTime = -1) ∧
    (parseCLF env s = some r →
      (consumeLine env paths r stats).latencyObservations =
        stats.latencyObservations) ∧
    (parseJSON env s = some rj → rj.requestTime ≥ 0 →
      (consumeLine env paths rj stats).latencyObservations =
        record stats.latencyObservations rj.status rj.requestTime none) := by
  have hreq : ∀ r' : parsedLogLine, parseCLF env s = some r' → r'.requestTime = -1 := by
    intro r' h
    unfold parseCLF at h
    cases hscan : env.sscanfCLF s with
    | none => rw [hscan] at h; exact absurd h (by simp)
    | some p =>
      obtain ⟨np, rawp⟩ := p
      rw [hscan] at h
      by_cases hn : np < 8
      · simp [hn] at h
      · simp [hn] at h
        cases htime : env.parseTimeCLF (rawp.timeStr ++ " " ++ rawp.timeZone) with
        | none => rw [htime] at h; exact absurd h (by simp)
        | some t =>
          rw [htime] at h
          have hh := Option.some.inj h
          subst hh
          rfl
  refine ⟨?_, ?_, hreq r, ?_, ?_⟩
  · intro h; simp [parseCLF, h]
  · intro h hn; simp [parseCLF, h, hn]
  · intro h
    rw [consumeLine_latency, hreq r h, if_neg (by norm_num)]
  · intro _ hge
    rw [consumeLine_latency, if_pos hge]

/-- Witness for C7 at concrete inputs: a 5-token CLF scan is rejected, a
successful CLF parse carries the `-1` sentinel and adds no latency
observation, and a JSON line with `request_time = 1/2` records it. -/
theorem claim7_clf_has_no_request_time_witness :
    parseCLF testEnv "clfShort" = none ∧
    (∀ r, parseCLF testEnv "clfOk" = some r → r.requestTime = -1) ∧
    (consumeLine testEnv ["/foo"]
      { time := 10, request := "GET /foo HTTP/1.1", status := "200",
        requestTime := 1 / 2, bytesSent := 123 } freshLogStats).latencyObservations =
      record freshLogStats.latencyObservations "200" (1 / 2) none := by
  refine ⟨?_, ?_, ?_⟩
  · exact (claim7_clf_has_no_request_time testEnv ["/foo"] "clfShort"
      { time := 0, request := "", status := "", requestTime := 0, bytesSent := 0 }
      { time := 0, request := "", status := "", requestTime := 0, bytesSent := 0 }
      freshLogStats 5
      { remoteHost := "h", clientID := "-", userID := "-", timeStr := "",
        timeZone := "", request := "", status := "", bytesSent := 0 }).2.1
      rfl (by norm_num)
  · intro r hr
    exact (claim7_clf_has_no_request_time testEnv ["/foo"] "clfOk" r r
      freshLogStats 0
      { remoteHost := "h", clientID := "-", userID := "-", timeStr := "",
        timeZone := "", request := "", status := "", bytesSent := 0 }).2.2.1 hr
  · exact (claim7_clf_has_no_request_time testEnv ["/foo"] "jsonLate"
      { time := 0, request := "", status := "", requestTime := 0, bytesSent := 0 }
      { time := 10, request := "GET /foo HTTP/1.1", status := "200",
        requestTime := 1 / 2, bytesSent := 123 }
      freshLogStats 0
      { remoteHost := "h", clientID := "-", userID := "-", timeStr := "",
        timeZone := "", request := "", status := "", bytesSent := 0 }).2.2.2.2
      (by rfl) (by norm_num)

theorem foldl_consumeLine_statusCounts (env : Env) (paths : List String)
    (recs : List parsedLogLine) :
    ∀ stats : logStats,
    (recs.foldl (fun st r => consumeLine env paths r st) stats).statusCounts =
      incFold (recs.map (fun r => (r.status, (none : Option Annot))))
        stats.statusCounts := by
  induction recs with
  | nil => intro stats; rfl
  | cons r recs ih =>
    intro stats
    rw [List.foldl_cons, ih, List.map_cons]
    show incFold _ (consumeLine env paths r stats).statusCounts = _
    rw [consumeLine_statusCounts]
    rfl

theorem countP_accepted (parse : String → Option parsedLogLine) (init : Int)
    (S : String) (lines : List String) :
    ((lines.filterMap parse).filter (fun r => init < r.time)).countP
        (fun r => r.status = S) =
      lines.countP (qualifies parse init S) := by
  induction lines with
  | nil => rfl
  | cons l lines ih =>
    cases h : parse l with
    | none => simp [h, qualifies, List.countP_cons, ih]
    | some r =>
      by_cases ht : init < r.time <;> by_cases hst : r.status = S <;>
        simp [h, ht, hst, qualifies, List.filter_cons, List.countP_cons, ih]

theorem inc_keysNodup (c : keyedCounter) (key : String) (ann : Option Annot)
    (h : keysNodup c) : keysNodup (inc c key ann) := by
  unfold inc
  by_cases hs : (lookupKey c key).isSome
  · rw [if_pos hs]
    unfold keysNodup
    rw [List.map_map]
    have : c.map (Prod.fst ∘ fun p =>
        if p.1 = key then
          (p.1, { total := p.2.total + 1, annotations := p.2.annotations })
        else p) = c.map Prod.fst := by
      apply List.map_congr_left
      intro p _
      by_cases hp : p.1 = key <;> simp [hp]
    rw [this]
    exact h
  · rw [if_neg hs]
    have h' : lookupKey c key = none := Option.not_isSome_iff_eq_none.mp hs
    have hkey : key ∉ c.map Prod.fst := by
      intro hmem
      obtain ⟨p, hp, hpk⟩ := List.mem_map.mp hmem
      have hfind : c.find? (fun p => p.1 = key) = none := by
        unfold lookupKey at h'
        cases hf : c.find? (fun p => p.1 = key) with
        | none => rfl
        | some q => rw [hf] at h'; simp at h'
      have := List.find?_eq_none.mp hfind p hp
      simp [hpk] at this
    unfold keysNodup
    rw [List.map_append]
    simp [List.nodup_append, hkey]
    exact h

theorem incFold_keysNodup (ops : List (String × Option Annot)) :
    ∀ c : keyedCounter, keysNodup c → keysNodup (incFold ops c) := by
  induction ops with
  | nil => intro c h; exact h
  | cons op ops ih =>
    intro c h
    exact ih (inc c op.1 op.2) (inc_keysNodup c op.1 op.2 h)

theorem keysNodup_lookup_of_mem {α : Type} (m : List (String × α)) (k : String)
    (v : α) (h : keysNodup m) (hm : (k, v) ∈ m) : lookupKey m k = some v := by
  induction m with
  | nil => simp at hm
  | cons a m ih =>
    rw [lookupKey_cons]
    rcases List.mem_cons.mp hm with heq | hm'
    · rw [← heq]
      simp
    · by_cases hak : a.1 = k
      · exfalso
        have hnd := (List.nodup_cons.mp h).1
        exact hnd (hak ▸ List.mem_map.mpr ⟨(k, v), hm', rfl⟩)
      · rw [if_neg hak]
        exact ih (List.nodup_cons.mp h).2 hm'

theorem statusCounterCalls_status_segment (c : keyedCounter) :
    statusCounterCalls (c.map (fun p =>
        MetricCall.add "http_response_count" [("status_code", p.1)]
          (p.2.total : Rat))) =
      c.map (fun p => (p.1, (p.2.total : Rat))) := by
  induction c with
  | nil => rfl
  | cons p c ih =>
    simp [statusCounterCalls, statusCounterCall, List.filterMap_cons] at ih ⊢
    exact ih

theorem statusCounterCalls_detailed_segment (c : keyedCounter) :
    statusCounterCalls (c.map (fun p =>
        MetricCall.add "detailed_http_response_count" (detailedLabels p.1 p.2)
          (p.2.total : Rat))) = [] := by
  have hne : ¬("detailed_http_response_count" = "http_response_count") := by decide
  simp [statusCounterCalls, statusCounterCall, hne]

theorem statusCounterCalls_observe_segment (name : String) (a : keyedAccumulator) :
    statusCounterCalls (a.map (fun p =>
        MetricCall.observe name [("status_code", p.1)] p.2.seen)) = [] := by
  simp [statusCounterCalls, statusCounterCall]

theorem statusCounterCalls_flushStats (sink : Sink) (hs : ∀ c, sink c = true)
    (stats : logStats) :
    statusCounterCalls (flushStats sink stats).1 =
      stats.statusCounts.map (fun p => (p.1, (p.2.total : Rat))) := by
  rw [flushStats_allok sink hs]
  show statusCounterCalls (_ ++ (_ ++ (_ ++ _))) = _
  have h1 := statusCounterCalls_status_segment stats.statusCounts
  have h2 := statusCounterCalls_detailed_segment stats.detailedStatusCounts
  have h3 := statusCounterCalls_observe_segment "http_response_time"
    stats.latencyObservations
  have h4 := statusCounterCalls_observe_segment "http_response_bytes_sent"
    stats.bytesSentObservations
  unfold statusCounterCalls at h1 h2 h3 h4 ⊢
  rw [List.filterMap_append, List.filterMap_append, List.filterMap_append,
    h1, h2, h3, h4]
  simp

/-- Claim C1: for every byte block, the status counter flushed to
`http_response_count` for a status code `S` equals the number of lines in
the block that parse successfully under the configured format, whose
timestamp is strictly after the pipeline's fixed start timestamp, and
whose status is `S`; a record whose timestamp is equal to or before the
start timestamp is never counted (on this and, since the block and cycle
are arbitrary, every later cycle). -/
theorem claim1_status_counter_counts_qualifying_lines
    (env : Env) (parse : String → Option parsedLogLine) (paths : List String)
    (initFinshed : Int) (sink : Sink) (b : String) (S : String)
    (hsink : ∀ c, sink c = true) :
    (lookupKey (scanStats env parse paths initFinshed b).statusCounts S =
      if (splitLines b).countP (qualifies parse initFinshed S) = 0 then none
      else some { total := (splitLines b).countP (qualifies parse initFinshed S)
                  annotations := none }) ∧
    (∀ v : Rat,
      (S, v) ∈ statusCounterCalls
          (consumeBytes env parse paths initFinshed sink b).1 ↔
        ((splitLines b).countP (qualifies parse initFinshed S) ≠ 0 ∧
         v = ((splitLines b).countP (qualifies parse initFinshed S) : Rat))) := by
  set n := (splitLines b).countP (qualifies parse initFinshed S) with hn
  set ops := (acceptedRecords parse initFinshed b).map
    (fun r => (r.status, (none : Option Annot))) with hops
  have hsc : (scanStats env parse paths initFinshed b).statusCounts =
      incFold ops newKeyedCounter := by
    rw [scanStats_eq_foldl_accepted, foldl_consumeLine_statusCounts, ← hops]
    rfl
  have hcount : ops.countP (fun op => op.1 = S) = n := by
    rw [hops, hn, List.countP_map]
    exact countP_accepted parse initFinshed S (splitLines b)
  have hlookup : lookupKey (scanStats env parse paths initFinshed b).statusCounts S =
      if n = 0 then none
      else some { total := n, annotations := (none : Option Annot) } := by
    rw [hsc, lookupKey_incFold]
    show (match ops.find? (fun op => op.1 = S) with
      | none => none
      | some op =>
        some { total := ops.countP (fun op => op.1 = S), annotations := op.2 }
      : Option annotatedCount) = _
    cases hf : ops.find? (fun op => op.1 = S) with
    | none =>
      have h0 : n = 0 := by
        rw [← hcount, List.countP_eq_zero]
        intro a ha
        simpa using List.find?_eq_none.mp hf a ha
      rw [if_pos h0]
    | some op =>
      have hmem := List.mem_of_find?_eq_some hf
      have hop1 : op.1 = S := by simpa using List.find?_some hf
      have hop2 : op.2 = none := by
        rw [hops] at hmem
        obtain ⟨r, _, hr⟩ := List.mem_map.mp hmem
        rw [← hr]
      have hnpos : n ≠ 0 := by
        rw [← hcount]
        intro h0
        have := List.countP_eq_zero.mp h0 op hmem
        simp [hop1] at this
      rw [if_neg hnpos, hcount]
      simp [hop2]
  refine ⟨hlookup, ?_⟩
  intro v
  have hcalls : statusCounterCalls (consumeBytes env parse paths initFinshed sink b).1 =
      (scanStats env parse paths initFinshed b).statusCounts.map
        (fun p => (p.1, (p.2.total : Rat))) := by
    unfold consumeBytes
    exact statusCounterCalls_flushStats sink hsink _
  rw [hcalls]
  have hwf : keysNodup (scanStats env parse paths initFinshed b).statusCounts := by
    rw [hsc]
    exact incFold_keysNodup ops newKeyedCounter (by simp [keysNodup, newKeyedCounter])
  constructor
  · intro hv
    obtain ⟨p, hp, hpe⟩ := List.mem_map.mp hv
    have hp1 : p.1 = S := congrArg Prod.fst hpe
    have hpv : (p.2.total : Rat) = v := congrArg Prod.snd hpe
    have hlk : lookupKey (scanStats env parse paths initFinshed b).statusCounts S =
        some p.2 := by
      rw [← hp1]
      exact keysNodup_lookup_of_mem _ p.1 p.2 hwf hp
    rw [hlookup] at hlk
    by_cases h0 : n = 0
    · rw [if_pos h0] at hlk
      simp at hlk
    · rw [if_neg h0] at hlk
      have hp2 := Option.some.inj hlk
      refine ⟨h0, ?_⟩
      rw [← hpv, ← hp2]
  · rintro ⟨h0, rfl⟩
    have hlk : lookupKey (scanStats env parse paths initFinshed b).statusCounts S =
        some { total := n, annotations := (none : Option Annot) } := by
      rw [hlookup, if_neg h0]
    unfold lookupKey at hlk
    cases hf : (scanStats env parse paths initFinshed b).statusCounts.find?
        (fun p => p.1 = S) with
    | none => rw [hf] at hlk; simp at hlk
    | some p =>
      rw [hf] at hlk
      have hp2 : p.2 = { total := n, annotations := (none : Option Annot) } := by
        simpa using hlk
      have hp1 : p.1 = S := by simpa using List.find?_some hf
      exact List.mem_map.mpr ⟨p, List.mem_of_find?_eq_some hf, by rw [hp1, hp2]⟩

/-- Witness for C1: in a block with two late lines, one early line and one
unparsable line (under the test oracle), status "200" is flushed with
value 2 — the early line is excluded. -/
theorem claim1_status_counter_counts_qualifying_lines_witness :
    ("200", (2 : Rat)) ∈ statusCounterCalls
      (consumeBytes testEnv (parseJSON testEnv) ["/foo"] 5 (fun _ => true)
        "jsonLate\njsonEarly\nbad\njsonLate").1 := by
  have h := claim1_status_counter_counts_qualifying_lines testEnv
    (parseJSON testEnv) ["/foo"] 5 (fun _ => true)
    "jsonLate\njsonEarly\nbad\njsonLate" "200" (fun _ => rfl)
  have hcnt : (splitLines "jsonLate\njsonEarly\nbad\njsonLate").countP
      (qualifies (parseJSON testEnv) 5 "200") = 2 := by decide
  exact (h.2 2).mpr ⟨by rw [hcnt]; norm_num, by rw [hcnt]; norm_num⟩

theorem flushCounterLoop_eq_callsLoop (sink : Sink)
    (mk : String → annotatedCount → MetricCall) (l : keyedCounter) :
    flushCounterLoop sink mk l = callsLoop sink (l.map (fun p => mk p.1 p.2)) := by
  induction l with
  | nil => rfl
  | cons p l ih =>
    rw [List.map_cons]
    unfold flushCounterLoop callsLoop
    rw [ih]

theorem flushHistLoop_eq_callsLoop (sink : Sink)
    (mk : String → annotatedObservations → MetricCall) (l : keyedAccumulator) :
    flushHistLoop sink mk l = callsLoop sink (l.map (fun p => mk p.1 p.2)) := by
  induction l with
  | nil => rfl
  | cons p l ih =>
    rw [List.map_cons]
    unfold flushHistLoop callsLoop
    rw [ih]

theorem callsLoop_append (sink : Sink) (l1 l2 : List MetricCall) :
    callsLoop sink (l1 ++ l2) =
      seqFlush (callsLoop sink l1) (fun _ => callsLoop sink l2) := by
  induction l1 with
  | nil => simp [callsLoop, seqFlush]
  | cons c l1 ih =>
    by_cases hc : sink c <;> simp [callsLoop, seqFlush, hc, ih]
    by_cases h2 : (callsLoop sink l1).2 <;> simp [seqFlush, h2]

theorem flushStats_eq_callsLoop (sink : Sink) (stats : logStats) :
    flushStats sink stats = callsLoop sink (flushCalls stats) := by
  unfold flushStats flushCalls
  simp only [flushCounterLoop_eq_callsLoop, flushHistLoop_eq_callsLoop,
    callsLoop_append]

theorem callsLoop_spec (sink : Sink) (calls : List MetricCall) :
    ((callsLoop sink calls).2 = true →
      (callsLoop sink calls).1 = calls ∧ ∀ c ∈ calls, sink c = true) ∧
    ((callsLoop sink calls).2 = false →
      ∃ pre c post, calls = pre ++ c :: post ∧
        (callsLoop sink calls).1 = pre ++ [c] ∧ sink c = false ∧
        ∀ c' ∈ pre, sink c' = true) := by
  induction calls with
  | nil =>
    constructor
    · intro _
      exact ⟨rfl, by simp⟩
    · intro h
      simp [callsLoop] at h
  | cons c calls ih =>
    by_cases hc : sink c
    · constructor
      · intro h
        rw [show (callsLoop sink (c :: calls)).2 = (callsLoop sink calls).2 by
          simp [callsLoop, hc]] at h
        obtain ⟨h1, h2⟩ := ih.1 h
        constructor
        · simp [callsLoop, hc, h1]
        · intro c' hc'
          rcases List.mem_cons.mp hc' with rfl | hc'
          · exact hc
          · exact h2 c' hc'
      · intro h
        rw [show (callsLoop sink (c :: calls)).2 = (callsLoop sink calls).2 by
          simp [callsLoop, hc]] at h
        obtain ⟨pre, c0, post, h1, h2, h3, h4⟩ := ih.2 h
        refine ⟨c :: pre, c0, post, by simp [h1], by simp [callsLoop, hc, h2], h3, ?_⟩
        intro c' hc'
        rcases List.mem_cons.mp hc' with rfl | hc'
        · exact hc
        · exact h4 c' hc'
    · constructor
      · intro h
        simp [callsLoop, hc] at h
      · intro _
        exact ⟨[], c, calls, rfl, by simp [callsLoop, hc], by simpa using hc, by simp⟩

theorem Run_clean_leading_events (env : Env) (parse : String → Option parsedLogLine)
    (paths : List String) (initFinshed : Int) (sink : Sink)
    (pre : List PollEvent)
    (h : ∀ e ∈ pre, ∃ b', e = .bytesRead b' ∧
        (consumeBytes env parse paths initFinshed sink b').2 = true)
    (tail : List PollEvent) :
    Run env parse paths initFinshed sink (pre ++ tail) =
      ((Run env parse paths initFinshed sink tail).1,
       (Run env parse paths initFinshed sink tail).2 + pre.length) := by
  induction pre with
  | nil => simp
  | cons e pre ih =>
    obtain ⟨b', rfl, hok⟩ := h e (List.mem_cons_self e pre)
    have ih' := ih (fun e' he' => h e' (List.mem_cons_of_mem _ he'))
    rw [List.cons_append]
    simp [Run, hok, ih']
    try omega
/-- Claim C6: during a cycle's flush the first metric-handle call the sink
rejects aborts the remainder of the flush (the trace ends at that call,
the planned calls after it are never made) and the cycle reports the
error; and in the `Run` loop a tailer error, or a cycle whose flush
errors, makes `Run` return immediately with an error (after a prefix of
clean cycles, exactly the prefix plus the failing event is consumed, and
the rest of the schedule is never processed). -/
theorem claim6_flush_abort_and_fatal_run_errors
    (env : Env) (parse : String → Option parsedLogLine) (paths : List String)
    (initFinshed : Int) (sink : Sink) (b bb : String) (stats : logStats)
    (pre rest : List PollEvent)
    (hpre : ∀ e ∈ pre, ∃ b', e = .bytesRead b' ∧
        (consumeBytes env parse paths initFinshed sink b').2 = true) :
    (consumeBytes env parse paths initFinshed sink b =
      callsLoop sink (flushCalls (scanStats env parse paths initFinshed b))) ∧
    ((flushStats sink stats).2 = false →
      ∃ pre' c post, flushCalls stats = pre' ++ c :: post ∧
        (flushStats sink stats).1 = pre' ++ [c] ∧ sink c = false ∧
        ∀ c' ∈ pre', sink c' = true) ∧
    ((flushStats sink stats).2 = true →
      (flushStats sink stats).1 = flushCalls stats) ∧
    (Run env parse paths initFinshed sink (pre ++ .tailerErr :: rest) =
      (.tailerError, pre.length + 1)) ∧
    ((consumeBytes env parse paths initFinshed sink bb).2 = false →
      Run env parse paths initFinshed sink (pre ++ .bytesRead bb :: rest) =
        (.consumeError, pre.length + 1)) := by
  refine ⟨?_, ?_, ?_, ?_, ?_⟩
  · show flushStats sink (scanStats env parse paths initFinshed b) = _
    exact flushStats_eq_callsLoop sink _
  · intro h
    rw [flushStats_eq_callsLoop] at h ⊢
    exact (callsLoop_spec sink (flushCalls stats)).2 h
  · intro h
    rw [flushStats_eq_callsLoop] at h ⊢
    exact ((callsLoop_spec sink (flushCalls stats)).1 h).1
  · rw [Run_clean_leading_events env parse paths initFinshed sink pre hpre]
    simp [Run, Nat.add_comm]
  · intro hcb
    rw [Run_clean_leading_events env parse paths initFinshed sink pre hpre]
    simp [Run, hcb, Nat.add_comm]

/-- Witness for C6: with a sink that rejects every call and a one-entry
aggregate, the flush trace is exactly the first (failing) call; and a
tailer error as the first event makes `Run` return `tailerError` after one
event. -/
theorem claim6_flush_abort_and_fatal_run_errors_witness :
    (∃ pre' c post, flushCalls testStats = pre' ++ c :: post ∧
      (flushStats (fun _ => false) testStats).1 = pre' ++ [c] ∧
      (fun _ => false) c = false ∧ ∀ c' ∈ pre', (fun _ => false) c' = true) ∧
    Run testEnv (parseJSON testEnv) ["/foo"] 5 (fun _ => false) [.tailerErr] =
      (.tailerError, 1) := by
  have h := claim6_flush_abort_and_fatal_run_errors testEnv (parseJSON testEnv)
    ["/foo"] 5 (fun _ => false) "" "" testStats [] [] (by simp)
  exact ⟨h.2.1 rfl, h.2.2.2.1⟩

theorem Next_readOk (wc : Nat → List Char) (wr : Option Nat) (now : Int)
    (t : Tailer) :
    Next ⟨wc, wr, true⟩ now t =
      (if ((wc t.fd).drop t.offset).length > 0 then
        .ok ((wc t.fd).drop t.offset,
          { t with offset := t.offset + ((wc t.fd).drop t.offset).length,
                   lastContent := now }, [])
      else if now - t.lastContent > t.idleDuration then
        .ok ((wc t.fd).drop t.offset,
          (openOrRotate ⟨wc, wr, true⟩
            { t with offset := t.offset + ((wc t.fd).drop t.offset).length }).1,
          (openOrRotate ⟨wc, wr, true⟩
            { t with offset := t.offset + ((wc t.fd).drop t.offset).length }).2)
      else
        .ok ((wc t.fd).drop t.offset,
          { t with offset := t.offset + ((wc t.fd).drop t.offset).length }, [])) :=
  rfl

/-- Claim C2: on every `Next` call (with a readable handle), the held
handle is replaced only when the read is zero-length, the idle threshold
has been exceeded since the last non-empty return, and the path resolves
to a different identity; if the identity is unchanged or re-resolution
fails, the Tailer's state (handle, identity, lastContent) is unchanged and
`Next` still returns the empty read without error; and replaying the
open/close events against the held-handle set leaves exactly one handle
held. -/
theorem claim2_handle_replaced_only_on_idle_rotation
    (w : World) (now : Int) (t : Tailer) (hread : w.readOk = true) :
    ∃ bytes t' evs, Next w now t = .ok (bytes, t', evs) ∧
      (t'.fd ≠ t.fd →
        bytes = [] ∧ now - t.lastContent > t.idleDuration ∧
        w.resolve = some t'.fd) ∧
      (bytes = [] → now - t.lastContent > t.idleDuration →
        (w.resolve = none ∨ w.resolve = some t.fd) → t' = t) ∧
      heldAfter [t.fd] evs = [t'.fd] := by
  obtain ⟨wc, wr, wro⟩ := w
  have hro : wro = true := hread
  subst hro
  rw [Next_readOk]
  by_cases hlen : ((wc t.fd).drop t.offset).length > 0
  · rw [if_pos hlen]
    refine ⟨_, _, _, rfl, ?_, ?_, ?_⟩
    · intro hfd
      exact absurd rfl hfd
    · intro hb
      rw [hb] at hlen
      simp at hlen
    · rfl
  · have hb : (wc t.fd).drop t.offset = [] :=
      List.length_eq_zero.mp (Nat.eq_zero_of_not_pos hlen)
    rw [if_neg hlen]
    have ht1 : { t with offset := t.offset + ((wc t.fd).drop t.offset).length } = t := by
      rw [hb]
      rfl
    rw [ht1]
    by_cases hidle : now - t.lastContent > t.idleDuration
    · rw [if_pos hidle]
      cases hr : wr with
      | none =>
        refine ⟨_, _, _, rfl, ?_, ?_, ?_⟩ <;> simp [openOrRotate, hr, heldAfter]
      | some id =>
        by_cases hid : id = t.fd
        · subst hid
          refine ⟨_, _, _, rfl, ?_, ?_, ?_⟩ <;>
            simp [openOrRotate, hr, heldAfter]
        · refine ⟨_, _, _, rfl, ?_, ?_, ?_⟩
          · intro _
            simp [openOrRotate, hr, hid, hb, hidle]
          · intro _ _ hcase
            rcases hcase with hnone | hsame
            · simp at hnone
            · have hids : id = t.fd := by simpa using hsame
              exact absurd hids hid
          · simp [openOrRotate, hr, hid, heldAfter, List.erase_cons]
    · rw [if_neg hidle]
      refine ⟨_, _, _, rfl, ?_, ?_, ?_⟩
      · intro hfd
        exact absurd rfl hfd
      · intro _ _ _
        rfl
      · rfl

/-- Witness for C2: at the rotation point of the test world (idle file on
inode 0, path now resolving to inode 1), the characterization holds. -/
theorem claim2_handle_replaced_only_on_idle_rotation_witness :
    ∃ bytes t' evs, Next testWorld 100 testTailer = .ok (bytes, t', evs) ∧
      (t'.fd ≠ testTailer.fd →
        bytes = [] ∧ 100 - testTailer.lastContent > testTailer.idleDuration ∧
        testWorld.resolve = some t'.fd) ∧
      (bytes = [] → 100 - testTailer.lastContent > testTailer.idleDuration →
        (testWorld.resolve = none ∨ testWorld.resolve = some testTailer.fd) →
        t' = testTailer) ∧
      heldAfter [testTailer.fd] evs = [t'.fd] :=
  claim2_handle_replaced_only_on_idle_rotation testWorld 100 testTailer rfl

theorem Next_bytes_spec (w : World) (now : Int) (t : Tailer)
    (hread : w.readOk = true) :
    ∃ t' evs, Next w now t = .ok ((w.content t.fd).drop t.offset, t', evs) ∧
      (t'.fd = t.fd →
        t'.offset = t.offset + ((w.content t.fd).drop t.offset).length) := by
  obtain ⟨wc, wr, wro⟩ := w
  have hro : wro = true := hread
  subst hro
  rw [Next_readOk]
  by_cases hlen : ((wc t.fd).drop t.offset).length > 0
  · rw [if_pos hlen]
    exact ⟨_, _, rfl, fun _ => rfl⟩
  · have hb : (wc t.fd).drop t.offset = [] :=
      List.length_eq_zero.mp (Nat.eq_zero_of_not_pos hlen)
    rw [if_neg hlen]
    by_cases hidle : now - t.lastContent > t.idleDuration
    · rw [if_pos hidle]
      cases hr : wr with
      | none =>
        refine ⟨_, _, rfl, ?_⟩
        intro _
        simp [openOrRotate, hr]
      | some id =>
        by_cases hid : id = t.fd
        · subst hid
          refine ⟨_, _, rfl, ?_⟩
          intro _
          simp [openOrRotate, hr]
        · refine ⟨_, _, rfl, ?_⟩
          intro hfd
          rw [show (openOrRotate { content := wc, resolve := some id, readOk := true }
              { t with offset := t.offset + ((wc t.fd).drop t.offset).length }).1 =
              { t with fd := id, offset := 0 } by simp [openOrRotate, hid]] at hfd
          exact absurd hfd hid
    · rw [if_neg hidle]
      exact ⟨_, _, rfl, fun _ => rfl⟩

/-- Claim C4: a freshly constructed Tailer's cursor is at byte 0 (no seek
to end-of-file), so its first `Next` returns the file's entire current
content; and every `Next` call returns exactly the bytes between the
previous cursor position and the current end-of-file, advancing the
cursor of the (unswapped) handle to that end. -/
theorem claim4_fresh_tailer_reads_from_zero
    (w w' : World) (idleDuration now : Int) (t t0 : Tailer) (evs0 : List FSEvent)
    (hnew : NewTailer w idleDuration = some (t0, evs0))
    (hread : w'.readOk = true)
    (hoff : t.offset ≤ (w'.content t.fd).length) :
    t0.offset = 0 ∧
    (∃ t' evs, Next w' now t0 = .ok (w'.content t0.fd, t', evs)) ∧
    (∃ t' evs, Next w' now t = .ok ((w'.content t.fd).drop t.offset, t', evs) ∧
      (t'.fd = t.fd → t'.offset = (w'.content t.fd).length)) := by
  have ht0 : t0.offset = 0 := by
    unfold NewTailer at hnew
    cases hr : w.resolve with
    | none => rw [hr] at hnew; exact absurd hnew (by simp)
    | some id =>
      rw [hr] at hnew
      have hinj := Option.some.inj hnew
      have h1 := congrArg (fun p => p.1.offset) hinj
      simpa using h1.symm
  refine ⟨ht0, ?_, ?_⟩
  · obtain ⟨t', evs, hn, _⟩ := Next_bytes_spec w' now t0 hread
    rw [ht0, List.drop_zero] at hn
    exact ⟨t', evs, hn⟩
  · obtain ⟨t', evs, hn, hoffa⟩ := Next_bytes_spec w' now t hread
    refine ⟨t', evs, hn, ?_⟩
    intro hfd
    rw [hoffa hfd, List.length_drop]
    omega

/-- Witness for C4: a tailer freshly opened on inode 1 of the test world
returns the whole content "NEW" on its first read; the partially-read
tailer on inode 0 returns the remaining bytes and ends at end-of-file. -/
theorem claim4_fresh_tailer_reads_from_zero_witness :
    (∃ t0 evs0, NewTailer testWorld 10 = some (t0, evs0) ∧ t0.offset = 0 ∧
      ∃ t' evs, Next testWorld 100 t0 = .ok ("NEW".data, t', evs)) ∧
    (∃ t' evs, Next testWorld 100
        { fd := 0, offset := 2, lastContent := 99, idleDuration := 10 } =
      .ok ("llo".data, t', evs) ∧
      (t'.fd = 0 → t'.offset = 5)) := by
  constructor
  · refine ⟨{ fd := 1, offset := 0, lastContent := 0, idleDuration := 10 },
      [.opened 1], rfl, ?_, ?_⟩
    · rfl
    · have h := claim4_fresh_tailer_reads_from_zero testWorld testWorld 10 100
        { fd := 0, offset := 2, lastContent := 99, idleDuration := 10 }
        { fd := 1, offset := 0, lastContent := 0, idleDuration := 10 }
        [.opened 1] rfl rfl (by decide)
      exact h.2.1
  · have h := claim4_fresh_tailer_reads_from_zero testWorld testWorld 10 100
      { fd := 0, offset := 2, lastContent := 99, idleDuration := 10 }
      { fd := 1, offset := 0, lastContent := 0, idleDuration := 10 }
      [.opened 1] rfl rfl (by decide)
    exact h.2.2

/-- Claim C3: if the file has rotated (the path resolves to a different
inode) and the idle threshold has elapsed with no new bytes, the very next
`Next` call returns zero bytes and swaps the handle (cursor at byte 0),
and the call after that returns exactly the new file's content from byte
0.  The state `t` is arbitrary, so the sequence holds at every successive
rotation, not just the first. -/
theorem claim3_one_extra_call_after_rotation
    (w₁ w₂ : World) (now₁ now₂ : Int) (t : Tailer) (b : Nat)
    (hread₁ : w₁.readOk = true) (hread₂ : w₂.readOk = true)
    (hexh : (w₁.content t.fd).drop t.offset = [])
    (hres : w₁.resolve = some b) (hneq : b ≠ t.fd)
    (hidle : now₁ - t.lastContent > t.idleDuration) :
    Next w₁ now₁ t =
      .ok ([], { t with fd := b, offset := 0 }, [.opened b, .closed t.fd]) ∧
    ∃ t₂ evs₂, Next w₂ now₂ { t with fd := b, offset := 0 } =
      .ok (w₂.content b, t₂, evs₂) := by
  constructor
  · obtain ⟨wc, wr, wro⟩ := w₁
    have hro : wro = true := hread₁
    subst hro
    have hrr : wr = some b := hres
    subst hrr
    rw [Next_readOk]
    have hlen : ¬((wc t.fd).drop t.offset).length > 0 := by
      rw [hexh]
      simp
    rw [if_neg hlen, if_pos hidle]
    rw [show { t with offset := t.offset + ((wc t.fd).drop t.offset).length } = t by
      rw [hexh]; rfl]
    have hor : openOrRotate { content := wc, resolve := some b, readOk := true } t =
        ({ t with fd := b, offset := 0 }, [.opened b, .closed t.fd]) := by
      simp [openOrRotate, hneq]
    rw [hor, hexh]
  · obtain ⟨t₂, evs₂, hn, _⟩ := Next_bytes_spec w₂ now₂
      { t with fd := b, offset := 0 } hread₂
    rw [show ({ t with fd := b, offset := 0 } : Tailer).fd = b from rfl,
      show ({ t with fd := b, offset := 0 } : Tailer).offset = 0 from rfl,
      List.drop_zero] at hn
    exact ⟨t₂, evs₂, hn⟩

/-- Witness for C3: in the test world (old inode 0 exhausted, path now at
inode 1 holding "NEW", idle threshold 10 exceeded at time 100), the first
call returns zero bytes and swaps, the second returns "NEW". -/
theorem claim3_one_extra_call_after_rotation_witness :
    Next testWorld 100 testTailer =
      .ok ([], { testTailer with fd := 1, offset := 0 },
        [.opened 1, .closed 0]) ∧
    ∃ t₂ evs₂, Next testWorld 200 { testTailer with fd := 1, offset := 0 } =
      .ok ("NEW".data, t₂, evs₂) := by
  have h := claim3_one_extra_call_after_rotation testWorld testWorld 100 200
    testTailer 1 rfl rfl rfl rfl (by decide) (by decide)
  exact ⟨h.1, h.2⟩

end NginxLogExporter
